import Mathlib

/-!
Verification of the Dual-Store Thread Synchronization Engine of deep-agents-ui.

The definitions below are a shallow embedding of the TypeScript sources:
  - src/app/hooks/useThreadPersistence.ts  (persistence sync engine)
  - src/app/hooks/useChat.ts               (identity resolver, fallback loader)
  - the thread list hook (useThreads, status mapping)

JavaScript sets are modelled as Finset String, JavaScript objects used as
string maps as functions String to Option, and the event-loop interleaving of
async flows as explicit step functions over small state machines whose atomic
segments are the stretches of code between await points.
-/

namespace DeepAgentsUI

/-! ### Thread list status reconciliation (useThreads)

The thread service status vocabulary is open, paused, closed; the LangGraph
(canonical) vocabulary is idle, busy, interrupted, error.  `open` is a Lean
keyword, so the constructor is named `open_`. -/

inductive ThreadServiceStatus
  | open_
  | paused
  | closed
deriving DecidableEq, Repr

inductive LangGraphStatus
  | idle
  | busy
  | interrupted
  | error
deriving DecidableEq, Repr

/-- Embeds mapThreadServiceStatusToLangGraphStatus from the thread list hook:
a switch with cases open to idle, paused to interrupted, closed to idle and a
default of idle that is unreachable on the three-constructor domain. -/
def mapThreadServiceStatusToLangGraphStatus :
    ThreadServiceStatus → LangGraphStatus
  | .open_ => .idle
  | .paused => .interrupted
  | .closed => .idle

/-! ### Local durable store of synced message ids
(loadSyncedIds / persistSyncedIds in useThreadPersistence.ts)

The localStorage entry under the synced-messages key is either absent,
present but unparseable (corrupt), or a parsed JSON object mapping thread
ids to arrays of message ids.  `loadSyncedIds` returns the entry for one
thread (the empty set when absent or corrupt); `persistSyncedIds` re-reads
the store, starts from an empty object when it is absent or corrupt, and
overwrites only the entry of the given thread. -/

inductive SyncedIdStore
  | absent
  | corrupt
  | valid (entries : String → Option (List String))

/-- Embeds loadSyncedIds: parse the stored JSON and return the array held
under the thread id (the message-id set), or the empty set when the raw
value is missing or fails to parse. -/
def loadSyncedIds (st : SyncedIdStore) (threadId : String) : List String :=
  match st with
  | .absent => []
  | .corrupt => []
  | .valid m => (m threadId).getD []

/-- Embeds persistSyncedIds: re-read and parse the store (falling back to an
empty object when absent or corrupt), set the entry of the given thread to
the array form of the id set, and write the object back. -/
def persistSyncedIds (st : SyncedIdStore) (threadId : String)
    (ids : List String) : SyncedIdStore :=
  match st with
  | .absent => .valid (Function.update (fun _ => none) threadId (some ids))
  | .corrupt => .valid (Function.update (fun _ => none) threadId (some ids))
  | .valid m => .valid (Function.update m threadId (some ids))

/-! ### File snapshot sync (syncFiles in useThreadPersistence.ts)

A file snapshot is the files record; two snapshots are compared in the code
by comparing their JSON serializations, which for a fixed key order is
equality of the association lists. -/

/-- A file snapshot: path to content, in object key order. -/
abbrev FileSnapshot := List (String × String)

/-- Embeds the body of syncFiles: bail out when the effect was cancelled,
when the current snapshot serializes identically to the last synced one, or
when no service thread id is mapped; otherwise issue one PATCH carrying the
full current snapshot.  The return value is the body of the PATCH that is
issued, if any. -/
def syncFilesPatch (cancelled : Bool) (files syncedFiles : FileSnapshot)
    (threadMapped : Bool) : Option FileSnapshot :=
  if cancelled then none
  else if files = syncedFiles then none
  else if threadMapped then some files
  else none

/-- Embeds the effect cleanup of the file sync effect: it first sets the
cancelled flag to true and clears the debounce timer, then, when the current
snapshot differs from the last synced one and a service thread id is mapped,
invokes syncFiles fire-and-forget.  The returned value is the PATCH body
that the teardown flush issues, if any. -/
def teardownFlush (files syncedFiles : FileSnapshot)
    (threadMapped : Bool) : Option FileSnapshot :=
  if files ≠ syncedFiles ∧ threadMapped then
    syncFilesPatch true files syncedFiles threadMapped
  else none

/-- Modelled from the spec: on teardown with an unflushed change pending and
a mapped persistent id, a best-effort flush pushes the pending snapshot
before teardown completes.  This is the behavior the spec describes for the
teardown path; it is compared against the embedded `teardownFlush`. -/
def specTeardownFlush (files syncedFiles : FileSnapshot)
    (threadMapped : Bool) : Option FileSnapshot :=
  if files ≠ syncedFiles ∧ threadMapped then some files else none

/-! ### Debounced file mutation sequence (file sync effect) -/

/-- State of the debounced file sync machinery: the last successfully synced
snapshot, the armed debounce timer with the snapshot its closure captured,
the current files prop, and the PATCH bodies issued so far. -/
structure FileSyncState where
  syncedFiles : FileSnapshot
  files : FileSnapshot
  pending : Option FileSnapshot
  patches : List FileSnapshot
deriving DecidableEq, Repr

/-- Embeds one run of the file sync effect caused by a file mutation: the
cleanup of the previous run sets its cancelled flag, clears the previous
timer and attempts the teardown flush (which, as `teardown_flush_is_noop`
shows, issues nothing), then the new run arms a fresh timer capturing the
new snapshot. -/
def fileMutation (threadMapped : Bool) (st : FileSyncState)
    (snap : FileSnapshot) : FileSyncState :=
  { st with
    patches := st.patches ++ (teardownFlush st.files st.syncedFiles threadMapped).toList
    files := snap
    pending := some snap }

/-- The cancelled guard at the top of syncFiles makes the teardown flush a
no-op: the cleanup sets cancelled to true before invoking it. -/
lemma teardownFlush_eq_none (files syncedFiles : FileSnapshot)
    (threadMapped : Bool) : teardownFlush files syncedFiles threadMapped = none := by
  by_cases h : files ≠ syncedFiles ∧ threadMapped = true
  · simp [teardownFlush, h, syncFilesPatch]
  · simp only [teardownFlush]
    rw [if_neg]
    simpa using h

/-- Embeds the debounce timer firing: the armed syncFiles closure runs with
its cancelled flag still false; on a successful PATCH the synced snapshot is
replaced by the pushed one. -/
def fireDebounceTimer (threadMapped : Bool) (st : FileSyncState) :
    FileSyncState :=
  match st.pending with
  | none => st
  | some snap =>
    match syncFilesPatch false snap st.syncedFiles threadMapped with
    | none => { st with pending := none }
    | some p =>
      { st with pending := none, syncedFiles := p, patches := st.patches ++ [p] }

/-- Runs a sequence of file mutations (arrivals of new files props within one
debounce window, so no intermediate timer ever fires) and then lets the one
surviving debounce timer fire. -/
def runDebounceWindow (threadMapped : Bool) (st : FileSyncState)
    (mutations : List FileSnapshot) : FileSyncState :=
  fireDebounceTimer threadMapped (mutations.foldl (fileMutation threadMapped) st)

/-! ### Message sync serialization driver (the currentSync IIFE)

The message sync effect builds an async IIFE currentSync that first awaits
the cached health check promise, then, to serialize passes, awaits
syncInProgressRef.current when it is set, and only then calls syncMessages.
Immediately after the IIFE is created (and therefore after it has suspended
at the health await, since healthCheckRef.current is always non-null at
that point, having been assigned earlier in the same synchronous effect
body), the effect executes syncInProgressRef.current = currentSync.

The machine below steps one such pass through its suspension points.  The
field syncInProgressSelf records whether syncInProgressRef.current holds
the promise of this very pass when it resumes; a promise settles only when
its async body returns, so a pass that awaits its own promise can never be
resumed and the step function leaves it in place. -/

inductive SyncDriverPC
  | awaitingHealth
  | awaitingPrior
  | readyToSync
  | finished
deriving DecidableEq, Repr

structure SyncDriverState where
  pc : SyncDriverPC
  syncInProgressSelf : Bool
  syncMessagesCalls : Nat
deriving DecidableEq, Repr

/-- The driver state right after the synchronous part of the message sync
effect ran: the pass is suspended at the health await and
syncInProgressRef.current already holds the promise of this very pass. -/
def syncDriverInit : SyncDriverState :=
  { pc := .awaitingHealth, syncInProgressSelf := true, syncMessagesCalls := 0 }

/-- Modelled from the spec: the intended driver state, in which the
reference consulted at the serialization wait holds only the promise of the
prior pass, so with no prior pass the wait is skipped.  Missing from the
source: the source has no state in which the pass resumes with the
reference not pointing at itself. -/
def intendedDriverInit : SyncDriverState :=
  { pc := .awaitingHealth, syncInProgressSelf := false, syncMessagesCalls := 0 }

/-- Embeds one event-loop resumption of the pass: the health await resolves
(service healthy); at the serialization wait the pass awaits
syncInProgressRef.current when set, and that promise, being the promise of
this very pass, never settles, so the pass stays suspended forever; a pass
that got past the wait calls syncMessages. -/
def syncDriverStep (s : SyncDriverState) : SyncDriverState :=
  match s.pc with
  | .awaitingHealth => { s with pc := .awaitingPrior }
  | .awaitingPrior =>
      if s.syncInProgressSelf then s
      else { s with pc := .readyToSync }
  | .readyToSync =>
      { s with pc := .finished, syncMessagesCalls := s.syncMessagesCalls + 1 }
  | .finished => s

/-! ### Fallback loader trigger (useChat fallback effect)

The fallback effect observes the stream for a resolved thread that has a
linked persistent id (fallbackThreadId).  On every evaluation of the
trigger condition, immediate or in the delayed two-second re-check, the
load may fire only when the stream finished loading with zero messages,
no fallback load is running, no fallback messages are held, and the
one-shot attempted marker does not name the current resolved thread; the
marker is assigned before loadMessagesFromThreadService is invoked.  The
delayed re-check uses the same guard and marker but skips the
thread-changed reset, which is a no-op while the thread is unchanged. -/

/-- The values the trigger condition reads at one evaluation. -/
structure FallbackObservation where
  isThreadLoading : Bool
  streamMessageCount : Nat
  isLoadingFallbackMessages : Bool
  fallbackMessagesLength : Nat
deriving DecidableEq, Repr

/-- The state the fallback effect keeps across evaluations: the one-shot
attempted marker and the GET history-recovery requests issued so far (each
recorded as the persistent thread id it targets). -/
structure FallbackState where
  attempted : Option String
  loads : List String
deriving DecidableEq, Repr

/-- Does this observation satisfy the environment part of the trigger:
stream finished loading with zero messages, no fallback load running, no
fallback messages held. -/
def fallbackTrigger (e : FallbackObservation) : Bool :=
  !e.isThreadLoading && e.streamMessageCount == 0 &&
  !e.isLoadingFallbackMessages && e.fallbackMessagesLength == 0

/-- Embeds one evaluation of the trigger for a fixed resolved thread id and
its linked persistent id: first the thread-changed reset clears a marker
naming a different thread, then, when the guard passes, the marker is set
to the resolved thread id before the load is issued. -/
def fallbackCheck (resolvedThreadId fallbackThreadId : String)
    (st : FallbackState) (e : FallbackObservation) : FallbackState :=
  let st :=
    if st.attempted ≠ some resolvedThreadId ∧ st.attempted ≠ none then
      { st with attempted := none }
    else st
  if fallbackTrigger e ∧ st.attempted ≠ some resolvedThreadId then
    { attempted := some resolvedThreadId,
      loads := st.loads ++ [fallbackThreadId] }
  else st

/-- Folds a sequence of trigger evaluations. -/
def runFallbackChecks (resolvedThreadId fallbackThreadId : String)
    (st : FallbackState) (events : List FallbackObservation) : FallbackState :=
  events.foldl (fallbackCheck resolvedThreadId fallbackThreadId) st

/-! ### Thread list aggregator (useThreads)

useThreads drives useSWRInfinite with a key function and a fetcher.  When a
thread service base URL, an access token and a config are all present
(useThreadService), every page key is a threadservice key; the langgraph
key is built only otherwise.  The threadservice fetcher maps a page of raw
records to ThreadItem values and yields an empty page on a non-2xx
response, a network error or an unparseable body, with an explicit comment
in both error paths that it does not fall back to LangGraph. -/

/-- A raw thread record of the persistent store listing, with the fields
the mapping reads.  Optional strings model absent-or-falsy JSON fields. -/
structure RawServiceThread where
  id : String
  updated_at : Nat
  status : ThreadServiceStatus
  title : Option String
  summary : Option String
deriving DecidableEq, Repr

/-- The list-level projection produced for rendering. -/
structure ThreadItem where
  id : String
  updatedAt : Nat
  status : LangGraphStatus
  title : String
  description : String
deriving DecidableEq, Repr

/-- A page key of useSWRInfinite, as built by the key function. -/
inductive PageKey
  | threadservice (pageIndex pageSize : Nat) (status : Option ThreadServiceStatus)
  | langgraph (pageIndex pageSize : Nat)
deriving DecidableEq, Repr

/-- Embeds the useSWRInfinite key function: stop at an exhausted previous
page or a missing config; with the thread service usable, always a
threadservice key; otherwise a langgraph key when an API key exists. -/
def getThreadsPageKey (useThreadService : Bool) (hasConfig : Bool)
    (hasApiKey : Bool) (pageIndex pageSize : Nat)
    (tsStatus : Option ThreadServiceStatus)
    (previousPageData : Option (List ThreadItem)) : Option PageKey :=
  if previousPageData = some [] then none
  else if !hasConfig then none
  else if useThreadService then some (.threadservice pageIndex pageSize tsStatus)
  else if !hasApiKey then none
  else some (.langgraph pageIndex pageSize)

/-- The outcome of the GET on the persistent store listing endpoint. -/
inductive ServiceListResponse
  | ok (threads : List RawServiceThread)
  | parseFailed
  | httpError (status : Nat)
  | networkError
deriving Repr

/-- Embeds the per-record mapping of the threadservice fetcher branch:
thread service UUID as the id, updated_at, the status folded through
mapThreadServiceStatusToLangGraphStatus, falsy titles replaced by a
placeholder and falsy summaries by the empty description. -/
def mapRawServiceThread (t : RawServiceThread) : ThreadItem :=
  { id := t.id
    updatedAt := t.updated_at
    status := mapThreadServiceStatusToLangGraphStatus t.status
    title :=
      match t.title with
      | some s => if s = "" then "Untitled Thread" else s
      | none => "Untitled Thread"
    description :=
      match t.summary with
      | some s => s
      | none => "" }

/-- Embeds the threadservice branch of the fetcher: the page produced for a
response, together with a flag recording whether any request was issued to
the execution store (the LangGraph client is only constructed in the
langgraph branch, so the flag is false on every path of this branch). -/
def fetchThreadServicePage (resp : ServiceListResponse) :
    List ThreadItem × Bool :=
  match resp with
  | .ok threads => (threads.map mapRawServiceThread, false)
  | .parseFailed => ([], false)
  | .httpError _ => ([], false)
  | .networkError => ([], false)

/-! ### Identity resolution of a fetched record and the service-only loader
(useChat)

When the raw identifier is in persistent-store id format and the record is
fetched successfully, the resolver reads metadata.langgraph_thread_id: a
truthy value resolves the execution id and remembers the persistent id as
fallback target; a missing or falsy one marks the thread service-only
(read-only), with resolved execution id null.  The service-only loader then
fetches the persisted messages, sorts them by created_at and converts each
to the canonical Message shape. -/

/-- JavaScript truthiness of an optional string field: present and
nonempty. -/
def truthyString : Option String → Option String
  | some s => if s = "" then none else some s
  | none => none

/-- Embeds the success branch of the thread resolution effect: given the
raw (persistent-format) thread id and the linked execution id field of the
fetched record, produce (resolvedThreadId, serviceOnlyThreadId,
fallbackThreadId); a non-null serviceOnlyThreadId marks the thread
read-only. -/
def resolveFetchedThread (threadId : String)
    (linkedExecutionId : Option String) :
    Option String × Option String × Option String :=
  match truthyString linkedExecutionId with
  | some l => (some l, none, some threadId)
  | none => (none, some threadId, none)

/-- A persisted message as the loader reads it. -/
structure ServiceMessage where
  id : String
  content : String
  kind : String
  participant_id : Option String
  source_message_type : Option String
  tool_call_id : Option String
  created_at : Nat
deriving DecidableEq, Repr

/-- A participant of the persisted record. -/
structure ServiceParticipant where
  id : String
  role : String
deriving DecidableEq, Repr

/-- The canonical message roles. -/
inductive MessageType
  | human
  | ai
  | tool
deriving DecidableEq, Repr

/-- The canonical Message shape the loader produces. -/
structure ConvertedMessage where
  id : String
  type : MessageType
  content : String
  tool_call_id : Option String
deriving DecidableEq, Repr

/-- Embeds the participant lookup of the loader: a truthy participant_id is
looked up in the participants of the record. -/
def lookupParticipant (participants : List ServiceParticipant)
    (m : ServiceMessage) : Option ServiceParticipant :=
  match truthyString m.participant_id with
  | some pid => participants.find? (fun p => p.id == pid)
  | none => none

/-- Embeds the message-type determination of the loader: a truthy stored
source_message_type that is human, ai or tool is used directly (any other
truthy value leaves the default ai in place); otherwise the participant is
looked up by id, a matched role of user, tool or agent maps accordingly
(any other role leaves the default ai), and with no matched participant a
tool_call-kind message becomes tool, anything else ai. -/
def determineMessageType (participants : List ServiceParticipant)
    (m : ServiceMessage) : MessageType :=
  match truthyString m.source_message_type with
  | some s =>
      if s = "human" then .human
      else if s = "ai" then .ai
      else if s = "tool" then .tool
      else .ai
  | none =>
      match lookupParticipant participants m with
      | none => if m.kind = "tool_call" then .tool else .ai
      | some p =>
          if p.role = "user" then .human
          else if p.role = "tool" then .tool
          else if p.role = "agent" then .ai
          else .ai

/-- Embeds the per-message conversion: id, determined type and content are
copied over, and tool messages carry the stored tool_call_id when it is
truthy. -/
def convertServiceMessage (participants : List ServiceParticipant)
    (m : ServiceMessage) : ConvertedMessage :=
  let t := determineMessageType participants m
  { id := m.id
    type := t
    content := m.content
    tool_call_id := if t = .tool then truthyString m.tool_call_id else none }

/-- Embeds the sort of the fetched messages by created_at (a stable
ascending sort on the timestamp). -/
def sortServiceMessages (msgs : List ServiceMessage) : List ServiceMessage :=
  msgs.mergeSort (fun a b => a.created_at ≤ b.created_at)

/-- Embeds the service-only loader body on a successfully fetched record:
sort the persisted messages by creation time and convert each one. -/
def loadServiceOnlyMessages (participants : List ServiceParticipant)
    (msgs : List ServiceMessage) : List ConvertedMessage :=
  (sortServiceMessages msgs).map (convertServiceMessage participants)

/-- The role rule exactly as the claim sentence states it: the role is
taken from stored source-type metadata first, else from the participant
role, else it defaults to agent.  Written from the claim wording, to be
compared with the embedded determineMessageType. -/
def claimRoleRule (participants : List ServiceParticipant)
    (m : ServiceMessage) : MessageType :=
  match truthyString m.source_message_type with
  | some s =>
      if s = "human" then .human
      else if s = "ai" then .ai
      else if s = "tool" then .tool
      else .ai
  | none =>
      match lookupParticipant participants m with
      | some p =>
          if p.role = "user" then .human
          else if p.role = "tool" then .tool
          else .ai
      | none => .ai

/-- The role rule as amended: with no stored source type and no matched
participant, a message whose kind is tool_call becomes a tool message, and
only other kinds default to agent; a matched participant role other than
user, tool or agent also defaults to agent. -/
def amendedRoleRule (participants : List ServiceParticipant)
    (m : ServiceMessage) : MessageType :=
  match truthyString m.source_message_type with
  | some s =>
      if s = "human" then .human
      else if s = "ai" then .ai
      else if s = "tool" then .tool
      else .ai
  | none =>
      match lookupParticipant participants m with
      | some p =>
          if p.role = "user" then .human
          else if p.role = "tool" then .tool
          else .ai
      | none => if m.kind = "tool_call" then .tool else .ai

/-! ### Message sync pass (syncMessages in useThreadPersistence.ts)

syncMessages selects the messages that have an id, are not in syncedIdsRef,
are not in syncingIdsRef and have defined content; when none are selected
it is a no-op.  Otherwise, after the service thread id is known, it adds
all selected ids to syncingIdsRef before the first network call, then POSTs
the selected messages sequentially in order; a successful POST moves the id
from syncingIdsRef into syncedIdsRef (persisted immediately), a failed one
is only removed from syncingIdsRef.  Passes here are applied sequentially,
one after the other, which is what the serialization of the driver intends
(its failure to do anything at all is settled separately). -/

/-- A message as the sync pass reads it: an optional id and possibly
undefined content. -/
structure SyncMsg where
  id : Option String
  content : Option String
deriving DecidableEq, Repr

/-- The two id sets the pass maintains: syncedIdsRef and syncingIdsRef. -/
structure SyncSets where
  synced : Finset String
  syncing : Finset String
deriving DecidableEq

/-- Embeds the selection filter of syncMessages. -/
def isNewMessage (s : SyncSets) (m : SyncMsg) : Bool :=
  match m.id with
  | none => false
  | some i => i ∉ s.synced ∧ i ∉ s.syncing ∧ m.content.isSome

/-- The candidate messages of one pass, in arrival order. -/
def selectNewMessages (msgs : List SyncMsg) (s : SyncSets) : List SyncMsg :=
  msgs.filter (isNewMessage s)

/-- The defined ids of a list of messages. -/
def msgIds (msgs : List SyncMsg) : List String :=
  msgs.filterMap SyncMsg.id

/-- Embeds the marking loop that adds every candidate id to syncingIdsRef
before any network call. -/
def markInFlight (s : SyncSets) (candidates : List SyncMsg) : SyncSets :=
  { s with syncing := s.syncing ∪ (msgIds candidates).toFinset }

/-- Embeds one iteration of the push loop for one candidate: the POST for
the message id either succeeds (per the success oracle, standing for the
response of the persistent store) and the id moves into syncedIdsRef, or
fails and the id is only removed from syncingIdsRef. -/
def pushOne (ok : String → Bool) (s : SyncSets) (m : SyncMsg) : SyncSets :=
  match m.id with
  | none => s
  | some i =>
      if ok i then
        { synced := insert i s.synced, syncing := s.syncing.erase i }
      else
        { s with syncing := s.syncing.erase i }

/-- The push loop over all candidates (sequential fold, as in the source). -/
def SyncSets.pushAll (s : SyncSets) (ok : String → Bool)
    (candidates : List SyncMsg) : SyncSets :=
  candidates.foldl (pushOne ok) s

/-- Embeds one full syncMessages pass over the observed message list. -/
def syncMessagesPass (ok : String → Bool) (msgs : List SyncMsg)
    (s : SyncSets) : SyncSets :=
  let candidates := selectNewMessages msgs s
  if candidates.isEmpty then s
  else (markInFlight s candidates).pushAll ok candidates

/-- The ids POSTed by one pass (every selected candidate id, in order). -/
def passPosts (msgs : List SyncMsg) (s : SyncSets) : List String :=
  msgIds (selectNewMessages msgs s)

/-- The ids whose POST succeeded in one pass. -/
def passSuccesses (ok : String → Bool) (msgs : List SyncMsg) (s : SyncSets) :
    List String :=
  (passPosts msgs s).filter ok

/-- A trace of serialized passes: each entry is the message list observed by
that pass together with the success oracle of its POSTs. -/
abbrev SyncTrace := List (List SyncMsg × (String → Bool))

/-- Runs a trace of passes. -/
def runSyncTrace (s : SyncSets) (trace : SyncTrace) : SyncSets :=
  trace.foldl (fun s p => syncMessagesPass p.2 p.1 s) s

/-- All successful POSTs across a trace, in order. -/
def traceSuccesses (s : SyncSets) (trace : SyncTrace) : List String :=
  match trace with
  | [] => []
  | p :: rest =>
      passSuccesses p.2 p.1 s ++ traceSuccesses (syncMessagesPass p.2 p.1 s) rest

/-- The ids with defined content in a message list. -/
def definedIds (msgs : List SyncMsg) : Finset String :=
  (msgIds (msgs.filter (fun m => m.content.isSome))).toFinset

/-! ### Idempotent thread creation under concurrency
(createThread / ensureThreadExists in useThreadPersistence.ts)

Creation flows are runs of the consolidated creation effect: each one
synchronously checks the thread map, the per-thread creation lock
(threadCreationInProgressRef) and the attempted marker, and, when all are
clear, calls createThread, which adds the thread id to the lock registry in
the same synchronous segment, then awaits the health check, re-checks the
map, issues the POST, and in its success path stores the returned persistent
id before releasing the lock in a finally.  Waiter flows are calls of
ensureThreadExists from the message sync path: they return a mapped id
immediately, poll while the creation lock is held, and re-check the map
once the lock is free.  Both kinds of flow interleave only at await points;
the step functions below make exactly the synchronous segments atomic.
The scenario of the claim is modelled with a reachable service and a
successful POST returning newId. -/

/-- Program counter of one creation-effect flow.  gotLock is the suspension
at the health-check await with the lock taken; posted is the suspension at
the POST response with the request issued; mapSet is the suspension after
the persistent id was stored but before the finally released the lock. -/
inductive CreatorPC
  | start
  | gotLock
  | posted
  | mapSet
  | done
deriving DecidableEq, Repr

/-- Program counter of one ensureThreadExists waiter flow. -/
inductive WaiterPC
  | check
  | waiting
  | resolved (r : Option String)
deriving DecidableEq, Repr

/-- The shared per-thread creation state: the thread-map entry of this
thread, the creation lock, the attempted-creation marker and the number of
POST /threads requests issued. -/
structure CreationState where
  threadMap : Option String
  lock : Bool
  created : Bool
  postCount : Nat
deriving DecidableEq, Repr

/-- A configuration: the shared state plus the program counters of all
creation flows and all waiter flows. -/
structure CreationConfig where
  st : CreationState
  creators : List CreatorPC
  waiters : List WaiterPC
deriving DecidableEq, Repr

/-- One atomic segment of creation flow i (out-of-range indices are
no-ops).  start: the synchronous prefix of the effect, which skips when the
map already has an entry, the lock is held or creation was already
attempted, and otherwise takes the lock and suspends at the health await.
gotLock: the service is healthy; after the double-check of the map the POST
is issued.  posted: the POST succeeded, the returned id is stored in the
map and the attempted marker set.  mapSet: the finally releases the lock. -/
def stepCreator (newId : String) (c : CreationConfig) (i : Nat) :
    CreationConfig :=
  match c.creators[i]? with
  | none => c
  | some pc =>
    match pc with
    | .start =>
        if c.st.threadMap.isSome ∨ c.st.lock ∨ c.st.created then
          { c with creators := c.creators.set i .done }
        else
          { c with st := { c.st with lock := true },
                   creators := c.creators.set i .gotLock }
    | .gotLock =>
        if c.st.threadMap.isSome then
          { c with st := { c.st with lock := false },
                   creators := c.creators.set i .done }
        else
          { c with st := { c.st with postCount := c.st.postCount + 1 },
                   creators := c.creators.set i .posted }
    | .posted =>
        { c with st := { c.st with threadMap := some newId, created := true },
                 creators := c.creators.set i .mapSet }
    | .mapSet =>
        { c with st := { c.st with lock := false },
                 creators := c.creators.set i .done }
    | .done => c

/-- One atomic segment of waiter flow j.  check: the synchronous prefix of
ensureThreadExists, resolving a mapped id at once, entering the poll loop
when the lock is held, and resolving null when the map is empty with the
lock free.  waiting: one wake-up of the poll loop, which keeps sleeping
while the lock is held and otherwise re-checks the map and resolves. -/
def stepWaiter (c : CreationConfig) (j : Nat) : CreationConfig :=
  match c.waiters[j]? with
  | none => c
  | some pc =>
    match pc with
    | .check =>
        match c.st.threadMap with
        | some v => { c with waiters := c.waiters.set j (.resolved (some v)) }
        | none =>
            if c.st.lock then { c with waiters := c.waiters.set j .waiting }
            else { c with waiters := c.waiters.set j (.resolved none) }
    | .waiting =>
        if c.st.lock then c
        else
          match c.st.threadMap with
          | some v => { c with waiters := c.waiters.set j (.resolved (some v)) }
          | none => { c with waiters := c.waiters.set j (.resolved none) }
    | .resolved _ => c

/-- One scheduled step: true picks a creation flow, false a waiter flow. -/
def stepCreation (newId : String) (c : CreationConfig) (who : Bool × Nat) :
    CreationConfig :=
  match who with
  | (true, i) => stepCreator newId c i
  | (false, j) => stepWaiter c j

/-- Runs a schedule of interleaved steps. -/
def runCreation (newId : String) (c : CreationConfig)
    (sched : List (Bool × Nat)) : CreationConfig :=
  sched.foldl (stepCreation newId) c

/-- The initial configuration: no map entry, lock free, nothing attempted,
no POST issued, M creation flows about to run their synchronous prefix and
K pending ensureThreadExists callers. -/
def initialCreation (M K : Nat) : CreationConfig :=
  { st := { threadMap := none, lock := false, created := false, postCount := 0 }
    creators := List.replicate M .start
    waiters := List.replicate K .check }

/-- A creation flow holds the critical section in these states. -/
def isInProg : CreatorPC → Bool
  | .gotLock => true
  | .posted => true
  | .mapSet => true
  | _ => false

/-- A creation flow that could still issue a POST of its own. -/
def isPrePost : CreatorPC → Bool
  | .gotLock => true
  | .posted => true
  | _ => false

/-- A creation flow suspended between its POST and storing the map entry. -/
def isPosted : CreatorPC → Bool
  | .posted => true
  | _ => false

end DeepAgentsUI

namespace DeepAgentsUI

/-! ## Theorems -/

/-- C6: the status-reconciliation function from persistent-store status to
canonical status is a total Lean function (hence deterministic and total on
its domain) and maps open to idle, paused to interrupted, and closed to idle. -/
theorem status_mapping_deterministic :
    mapThreadServiceStatusToLangGraphStatus .open_ = .idle ∧
    mapThreadServiceStatusToLangGraphStatus .paused = .interrupted ∧
    mapThreadServiceStatusToLangGraphStatus .closed = .idle ∧
    ∀ s : ThreadServiceStatus,
      mapThreadServiceStatusToLangGraphStatus s = .idle ∨
      mapThreadServiceStatusToLangGraphStatus s = .interrupted := by
  refine ⟨rfl, rfl, rfl, ?_⟩
  intro s
  cases s <;> simp [mapThreadServiceStatusToLangGraphStatus]

/-- C10: persisting the synced-id set of one thread and loading it back
returns exactly that set, and the observable entries of every other thread
are left unchanged by the persist. -/
theorem persist_load_synced_ids (st : SyncedIdStore) (t : String)
    (ids : List String) (t' : String) (hne : t' ≠ t) :
    loadSyncedIds (persistSyncedIds st t ids) t = ids ∧
    loadSyncedIds (persistSyncedIds st t ids) t' = loadSyncedIds st t' := by
  constructor
  · cases st <;> simp [loadSyncedIds, persistSyncedIds]
  · cases st <;> simp [loadSyncedIds, persistSyncedIds, Function.update, hne]

/-- Witness for C10 at a concrete store, thread and id set. -/
theorem persist_load_synced_ids_witness :
    ("b" : String) ≠ "a" ∧
    (loadSyncedIds
        (persistSyncedIds
          (.valid (fun s => if s = "b" then some ["y"] else none)) "a" ["x"]) "a"
        = ["x"] ∧
     loadSyncedIds
        (persistSyncedIds
          (.valid (fun s => if s = "b" then some ["y"] else none)) "a" ["x"]) "b"
        = loadSyncedIds
            (.valid (fun s => if s = "b" then some ["y"] else none)) "b") :=
  ⟨by decide,
   persist_load_synced_ids
     (.valid (fun s => if s = "b" then some ["y"] else none)) "a" ["x"] "b"
     (by decide)⟩

/-- C9: the teardown flush never issues a PATCH.  The cleanup sets the
cancelled flag before invoking syncFiles, and syncFiles returns immediately
when cancelled, so even with a pending unflushed change and a mapped thread
the flush is a no-op; the spec-modelled teardown flush issues the pending
snapshot at the same input. -/
theorem teardown_flush_is_noop :
    (∀ (files syncedFiles : FileSnapshot) (threadMapped : Bool),
        teardownFlush files syncedFiles threadMapped = none) ∧
    teardownFlush [("notes.md", "new content")] [] true = none ∧
    specTeardownFlush [("notes.md", "new content")] [] true
      = some [("notes.md", "new content")] :=
  ⟨fun f s m => teardownFlush_eq_none f s m, rfl, rfl⟩

/-- A run of file mutations only re-arms the debounce timer: the cleanup of
each superseded run cancels its timer and its flush is a no-op, so nothing
is pushed and the pending snapshot is always the latest one. -/
lemma foldl_fileMutation (m : Bool) (st : FileSyncState)
    (ms : List FileSnapshot) :
    (ms.foldl (fileMutation m) st).syncedFiles = st.syncedFiles ∧
    (ms.foldl (fileMutation m) st).patches = st.patches ∧
    (ms.foldl (fileMutation m) st).pending
      = (match ms.getLast? with | none => st.pending | some l => some l) := by
  induction ms generalizing st with
  | nil => simp
  | cons x xs ih =>
    have h := ih (fileMutation m st x)
    refine ⟨?_, ?_, ?_⟩
    · simpa [fileMutation] using h.1
    · simpa [fileMutation, teardownFlush_eq_none] using h.2.1
    · rcases hx : xs.getLast? with _ | l
      · have hxs : xs = [] := List.getLast?_eq_none_iff.mp hx
        subst hxs
        simp [fileMutation]
      · have := h.2.2
        rw [hx] at this
        simpa [List.getLast?_cons, hx] using this

/-- C7: any nonempty sequence of file mutations within one debounce window
coalesces into at most one PATCH, carrying exactly the final snapshot, and
no PATCH at all when the final snapshot equals the last synced one;
intermediate snapshots are never pushed. -/
theorem debounced_file_coalescing (st : FileSyncState)
    (ms : List FileSnapshot) (l : FileSnapshot) (hlast : ms.getLast? = some l) :
    (runDebounceWindow true st ms).patches
      = st.patches ++ (if l = st.syncedFiles then [] else [l]) ∧
    (l = st.syncedFiles →
      (runDebounceWindow true st ms).syncedFiles = st.syncedFiles) ∧
    (l ≠ st.syncedFiles → (runDebounceWindow true st ms).syncedFiles = l) := by
  have h := foldl_fileMutation true st ms
  rw [hlast] at h
  obtain ⟨h1, h2, h3⟩ := h
  unfold runDebounceWindow
  by_cases he : l = st.syncedFiles
  · subst he
    simp [fireDebounceTimer, h1, h2, h3, syncFilesPatch]
  · constructor
    · simp [fireDebounceTimer, h1, h2, h3, syncFilesPatch, he]
    · constructor
      · intro hc; exact absurd hc he
      · intro _
        simp [fireDebounceTimer, h1, h2, h3, syncFilesPatch, he]

/-- The sequential push loop: it inserts exactly the successfully POSTed
candidate ids into syncedIdsRef and removes every candidate id from
syncingIdsRef. -/
lemma pushAll_spec (ok : String → Bool) (c : List SyncMsg) (s : SyncSets) :
    (s.pushAll ok c).synced = s.synced ∪ ((msgIds c).filter ok).toFinset ∧
    (s.pushAll ok c).syncing = s.syncing \ (msgIds c).toFinset := by
  induction c generalizing s with
  | nil => simp [SyncSets.pushAll, msgIds]
  | cons m c ih =>
    have hstep : (s.pushAll ok (m :: c)) = (pushOne ok s m).pushAll ok c := rfl
    rw [hstep]
    obtain ⟨ih1, ih2⟩ := ih (pushOne ok s m)
    cases hid : m.id with
    | none =>
      constructor
      · rw [ih1]
        simp [pushOne, hid, msgIds, List.filterMap_cons]
      · rw [ih2]
        simp [pushOne, hid, msgIds, List.filterMap_cons]
    | some i =>
      by_cases hok : ok i
      · constructor
        · rw [ih1]
          ext x
          simp [pushOne, hid, hok, msgIds, List.filterMap_cons,
            List.filter_cons]
          try tauto
        · rw [ih2]
          ext x
          simp [pushOne, hid, hok, msgIds, List.filterMap_cons,
            Finset.mem_erase]
          try tauto
      · constructor
        · rw [ih1]
          ext x
          simp [pushOne, hid, hok, msgIds, List.filterMap_cons,
            List.filter_cons]
          try tauto
        · rw [ih2]
          ext x
          simp [pushOne, hid, hok, msgIds, List.filterMap_cons,
            Finset.mem_erase]
          try tauto

/-- Every id selected by a pass is outside both syncedIdsRef and
syncingIdsRef at selection time, and its message has defined content. -/
lemma passPosts_fresh (msgs : List SyncMsg) (s : SyncSets) :
    ∀ i ∈ passPosts msgs s, i ∉ s.synced ∧ i ∉ s.syncing := by
  intro i hi
  simp only [passPosts, msgIds, selectNewMessages, List.mem_filterMap,
    List.mem_filter] at hi
  obtain ⟨m, ⟨-, hnew⟩, hid⟩ := hi
  simp only [isNewMessage, hid] at hnew
  rw [decide_eq_true_eq] at hnew
  exact ⟨hnew.1, hnew.2.1⟩

/-- One pass adds exactly its successful POSTs to syncedIdsRef and leaves
syncingIdsRef as it was minus its own candidates. -/
lemma syncMessagesPass_spec (ok : String → Bool) (msgs : List SyncMsg)
    (s : SyncSets) :
    (syncMessagesPass ok msgs s).synced
      = s.synced ∪ (passSuccesses ok msgs s).toFinset ∧
    (syncMessagesPass ok msgs s).syncing
      = s.syncing \ (passPosts msgs s).toFinset := by
  simp only [syncMessagesPass]
  by_cases hemp : (selectNewMessages msgs s).isEmpty = true
  · have h0 : selectNewMessages msgs s = [] := List.isEmpty_iff.mp hemp
    rw [if_pos hemp]
    constructor
    · simp [passSuccesses, passPosts, msgIds, h0]
    · simp [passPosts, msgIds, h0]
  · rw [if_neg hemp]
    obtain ⟨h1, h2⟩ := pushAll_spec ok (selectNewMessages msgs s)
      (markInFlight s (selectNewMessages msgs s))
    constructor
    · rw [h1]
      simp only [markInFlight, passSuccesses, passPosts]
    · rw [h2]
      simp only [markInFlight, passPosts]
      ext x
      simp only [Finset.mem_sdiff, Finset.mem_union, List.mem_toFinset]
      constructor
      · rintro ⟨hx | hx, hnot⟩
        · exact ⟨hx, hnot⟩
        · exact absurd hx hnot
      · rintro ⟨hx, hnot⟩
        exact ⟨Or.inl hx, hnot⟩

/-- syncedIdsRef grows monotonically along a pass. -/
lemma syncMessagesPass_synced_mono (ok : String → Bool) (msgs : List SyncMsg)
    (s : SyncSets) : s.synced ⊆ (syncMessagesPass ok msgs s).synced := by
  rw [(syncMessagesPass_spec ok msgs s).1]
  exact Finset.subset_union_left

/-- Every success of a pass lands in syncedIdsRef after that pass. -/
lemma passSuccesses_subset_synced (ok : String → Bool) (msgs : List SyncMsg)
    (s : SyncSets) :
    ∀ i ∈ passSuccesses ok msgs s, i ∈ (syncMessagesPass ok msgs s).synced := by
  intro i hi
  rw [(syncMessagesPass_spec ok msgs s).1]
  exact Finset.mem_union_right _ (List.mem_toFinset.mpr hi)

/-- No id that is already in syncedIdsRef is ever successfully POSTed again
later in a trace. -/
lemma traceSuccesses_not_synced (trace : SyncTrace) :
    ∀ s : SyncSets, ∀ i ∈ traceSuccesses s trace, i ∉ s.synced := by
  induction trace with
  | nil => intro s i hi; simp [traceSuccesses] at hi
  | cons p rest ih =>
    intro s i hi
    rw [traceSuccesses, List.mem_append] at hi
    rcases hi with hi | hi
    · have := passPosts_fresh p.1 s i (List.mem_of_mem_filter hi)
      exact this.1
    · intro hsyn
      exact ih (syncMessagesPass p.2 p.1 s) i hi
        (syncMessagesPass_synced_mono p.2 p.1 s hsyn)

/-- The successful POSTs of one pass are pairwise distinct when the observed
message list has pairwise distinct ids. -/
lemma passSuccesses_nodup (ok : String → Bool) (msgs : List SyncMsg)
    (s : SyncSets) (hn : (msgIds msgs).Nodup) :
    (passSuccesses ok msgs s).Nodup := by
  have hsub : List.Sublist (passPosts msgs s) (msgIds msgs) := by
    unfold passPosts msgIds selectNewMessages
    exact (List.filter_sublist msgs).filterMap SyncMsg.id
  exact ((hsub.nodup hn).filter ok)

/-- Across a serialized trace with pairwise-distinct observed ids the
successful POSTs are pairwise distinct. -/
lemma traceSuccesses_nodup (trace : SyncTrace)
    (hn : ∀ p ∈ trace, (msgIds p.1).Nodup) :
    ∀ s : SyncSets, (traceSuccesses s trace).Nodup := by
  induction trace with
  | nil => intro s; simp [traceSuccesses]
  | cons p rest ih =>
    intro s
    rw [traceSuccesses]
    apply List.Nodup.append
    · exact passSuccesses_nodup p.2 p.1 s (hn p (List.mem_cons_self p rest))
    · exact ih (fun q hq => hn q (List.mem_cons_of_mem _ hq))
        (syncMessagesPass p.2 p.1 s)
    · intro i hi1 hi2
      exact traceSuccesses_not_synced rest (syncMessagesPass p.2 p.1 s) i hi2
        (passSuccesses_subset_synced p.2 p.1 s i hi1)

/-- An all-success pass from a quiescent state makes syncedIdsRef exactly
the defined ids of the observed list, provided nothing alien was synced
before. -/
lemma syncMessagesPass_converge (msgs : List SyncMsg) (s : SyncSets)
    (h0 : s.syncing = ∅) (hsub : s.synced ⊆ definedIds msgs) :
    (syncMessagesPass (fun _ => true) msgs s).synced = definedIds msgs := by
  rw [(syncMessagesPass_spec (fun _ => true) msgs s).1]
  apply Finset.Subset.antisymm
  · apply Finset.union_subset hsub
    intro i hi
    rw [List.mem_toFinset] at hi
    have hi' : i ∈ passPosts msgs s := List.mem_of_mem_filter hi
    simp only [passPosts, msgIds, selectNewMessages, List.mem_filterMap,
      List.mem_filter] at hi'
    obtain ⟨m, ⟨hm, hnew⟩, hid⟩ := hi'
    simp only [isNewMessage, hid] at hnew
    rw [decide_eq_true_eq] at hnew
    simp only [definedIds, msgIds, List.mem_toFinset, List.mem_filterMap,
      List.mem_filter]
    exact ⟨m, ⟨hm, hnew.2.2⟩, hid⟩
  · intro i hi
    simp only [definedIds, msgIds, List.mem_toFinset, List.mem_filterMap,
      List.mem_filter] at hi
    obtain ⟨m, ⟨hm, hdef⟩, hid⟩ := hi
    by_cases hsyn : i ∈ s.synced
    · exact Finset.mem_union_left _ hsyn
    · apply Finset.mem_union_right
      rw [List.mem_toFinset]
      simp only [passSuccesses, List.filter_true, passPosts, msgIds,
        selectNewMessages, List.mem_filterMap, List.mem_filter]
      refine ⟨m, ⟨hm, ?_⟩, hid⟩
      simp only [isNewMessage, hid]
      rw [decide_eq_true_eq]
      refine ⟨hsyn, ?_, hdef⟩
      rw [h0]
      exact Finset.not_mem_empty i

/-- C1: across any serialized sequence of sync passes with pairwise-distinct
observed ids, no message id is ever successfully POSTed twice; a selected
id is never one already synced or in flight; every selected id is in
syncingIdsRef once the marking loop (which precedes the first network call)
has run; and an all-success pass from a quiescent state whose synced set is
contained in the defined ids makes syncedIdsRef exactly the set of message
ids with defined content. -/
theorem sync_no_duplicate_post (trace : SyncTrace)
    (hn : ∀ p ∈ trace, (msgIds p.1).Nodup) (s0 : SyncSets) :
    (traceSuccesses s0 trace).Nodup ∧
    (∀ msgs s, ∀ i ∈ passPosts msgs s, i ∉ s.synced ∧ i ∉ s.syncing) ∧
    (∀ msgs s, ∀ i ∈ passPosts msgs s,
        i ∈ (markInFlight s (selectNewMessages msgs s)).syncing) ∧
    (∀ msgs (s : SyncSets), s.syncing = ∅ → s.synced ⊆ definedIds msgs →
        (syncMessagesPass (fun _ => true) msgs s).synced = definedIds msgs) := by
  refine ⟨traceSuccesses_nodup trace hn s0, passPosts_fresh, ?_, ?_⟩
  · intro msgs s i hi
    simp only [markInFlight, Finset.mem_union, List.mem_toFinset]
    exact Or.inr hi
  · exact fun msgs s h0 hsub => syncMessagesPass_converge msgs s h0 hsub

/-- Witness for C1: a two-pass trace in which the second pass re-observes
the first message next to a new one yields two distinct successful POSTs. -/
theorem sync_no_duplicate_post_witness :
    (∀ p ∈ [([⟨some "m1", some "hello"⟩], fun _ => true),
            ([⟨some "m1", some "hello"⟩, ⟨some "m2", some "world"⟩],
             (fun _ => true : String → Bool))],
        (msgIds p.1).Nodup) ∧
    (traceSuccesses ⟨∅, ∅⟩
        [([⟨some "m1", some "hello"⟩], fun _ => true),
         ([⟨some "m1", some "hello"⟩, ⟨some "m2", some "world"⟩],
          (fun _ => true : String → Bool))]).Nodup := by
  constructor
  · intro p hp
    rcases List.mem_cons.mp hp with rfl | hp
    · decide
    · rcases List.mem_cons.mp hp with rfl | hp
      · decide
      · exact absurd hp (List.not_mem_nil p)
  · exact (sync_no_duplicate_post
      [([⟨some "m1", some "hello"⟩], fun _ => true),
       ([⟨some "m1", some "hello"⟩, ⟨some "m2", some "world"⟩],
        (fun _ => true : String → Bool))]
      (by
        intro p hp
        rcases List.mem_cons.mp hp with rfl | hp
        · decide
        · rcases List.mem_cons.mp hp with rfl | hp
          · decide
          · exact absurd hp (List.not_mem_nil p))
      ⟨∅, ∅⟩).1

/-- C5 (counterexample): the claim role rule (source-type metadata first,
else participant role, else agent) disagrees with the code on a message with
no stored source type, no participant and kind tool_call: the code yields
tool, the claim as stated yields agent. -/
theorem loader_role_rule_counterexample :
    determineMessageType [] ⟨"m1", "output", "tool_call", none, none, none, 0⟩
      = .tool ∧
    claimRoleRule [] ⟨"m1", "output", "tool_call", none, none, none, 0⟩
      = .ai := ⟨rfl, rfl⟩

/-- C5 (amended): a fetched record with no truthy linked execution id makes
the thread read-only with resolved execution id null, and the loader yields
exactly the persisted messages sorted by creation time, one canonical
message per persisted message, with the role determined by the amended rule
(source-type metadata first, else matched participant role, else tool for
tool_call-kind messages and agent otherwise) and tool messages carrying
their stored toolCallId. -/
theorem service_only_read_only_load (tid : String) (linked : Option String)
    (hlink : truthyString linked = none)
    (parts : List ServiceParticipant) (msgs : List ServiceMessage) :
    resolveFetchedThread tid linked = (none, some tid, none) ∧
    (sortServiceMessages msgs).Pairwise
      (fun a b => a.created_at ≤ b.created_at) ∧
    (sortServiceMessages msgs).Perm msgs ∧
    loadServiceOnlyMessages parts msgs
      = (sortServiceMessages msgs).map (convertServiceMessage parts) ∧
    (loadServiceOnlyMessages parts msgs).length = msgs.length ∧
    (∀ m, determineMessageType parts m = amendedRoleRule parts m) ∧
    (∀ m, (convertServiceMessage parts m).tool_call_id
        = if determineMessageType parts m = .tool then truthyString m.tool_call_id
          else none) := by
  refine ⟨?_, ?_, ?_, rfl, ?_, ?_, fun m => rfl⟩
  · simp [resolveFetchedThread, hlink]
  · have h := @List.sorted_mergeSort ServiceMessage
      (fun a b : ServiceMessage => a.created_at ≤ b.created_at)
      (fun a b c hab hbc => by
        simp only [decide_eq_true_eq] at *
        omega)
      (fun a b => by
        simp only [Bool.or_eq_true, decide_eq_true_eq]
        omega)
      msgs
    exact h.imp (fun hab => by simpa using hab)
  · exact List.mergeSort_perm msgs _
  · simp [loadServiceOnlyMessages, sortServiceMessages]
  · intro m
    cases h1 : truthyString m.source_message_type with
    | some s => simp [determineMessageType, amendedRoleRule, h1]
    | none =>
      cases h2 : lookupParticipant parts m with
      | none => simp [determineMessageType, amendedRoleRule, h1, h2]
      | some p =>
        simp only [determineMessageType, amendedRoleRule, h1, h2]
        split_ifs <;> rfl

/-- Witness for C5 (amended) at a record with an absent linked execution
id. -/
theorem service_only_read_only_load_witness :
    truthyString none = none ∧
    resolveFetchedThread "svc-7" none = (none, some "svc-7", none) :=
  ⟨rfl, (service_only_read_only_load "svc-7" none rfl [] []).1⟩

/-- C8: when authenticated with persistent-store access configured, every
issued page key targets the persistent store, a non-2xx response, network
error or unparseable body yields an empty page, and no path of the
threadservice fetcher issues a listing request to the execution store. -/
theorem thread_list_sole_source (hasApiKey : Bool) (pageIndex pageSize : Nat)
    (tsStatus : Option ThreadServiceStatus)
    (prev : Option (List ThreadItem)) (hprev : prev ≠ some []) :
    getThreadsPageKey true true hasApiKey pageIndex pageSize tsStatus prev
      = some (.threadservice pageIndex pageSize tsStatus) ∧
    (∀ code, fetchThreadServicePage (.httpError code) = ([], false)) ∧
    fetchThreadServicePage .networkError = ([], false) ∧
    fetchThreadServicePage .parseFailed = ([], false) ∧
    ∀ resp : ServiceListResponse, (fetchThreadServicePage resp).2 = false := by
  refine ⟨?_, fun _ => rfl, rfl, rfl, ?_⟩
  · simp [getThreadsPageKey, hprev]
  · intro resp
    cases resp <;> rfl

/-- Witness for C8 at the first page with no previous page data. -/
theorem thread_list_sole_source_witness :
    (none : Option (List ThreadItem)) ≠ some [] ∧
    getThreadsPageKey true true false 0 20 none none
      = some (.threadservice 0 20 none) :=
  ⟨by decide,
   (thread_list_sole_source false 0 20 none none (by decide)).1⟩

/-- Once the one-shot marker names the current thread and its single load
was issued, every further evaluation leaves the state unchanged. -/
lemma fallbackCheck_after_load (rtid ftid : String) (e : FallbackObservation) :
    fallbackCheck rtid ftid ⟨some rtid, [ftid]⟩ e = ⟨some rtid, [ftid]⟩ := by
  simp [fallbackCheck]

lemma runFallbackChecks_after_load (rtid ftid : String)
    (events : List FallbackObservation) :
    runFallbackChecks rtid ftid ⟨some rtid, [ftid]⟩ events
      = ⟨some rtid, [ftid]⟩ := by
  induction events with
  | nil => rfl
  | cons x xs ih =>
    unfold runFallbackChecks at ih ⊢
    rw [List.foldl_cons, fallbackCheck_after_load, ih]

/-- From the fresh state, one evaluation either fires the single load (when
the trigger holds) or changes nothing. -/
lemma fallbackCheck_fresh (rtid ftid : String) (e : FallbackObservation) :
    fallbackCheck rtid ftid ⟨none, []⟩ e
      = (if fallbackTrigger e then (⟨some rtid, [ftid]⟩ : FallbackState)
         else ⟨none, []⟩) := by
  by_cases h : fallbackTrigger e <;> simp [fallbackCheck, h]

/-- The attempted marker and issued loads only ever take the two values the
one-shot design allows. -/
lemma runFallbackChecks_cases (rtid ftid : String)
    (events : List FallbackObservation) :
    runFallbackChecks rtid ftid ⟨none, []⟩ events = ⟨none, []⟩ ∨
    runFallbackChecks rtid ftid ⟨none, []⟩ events = ⟨some rtid, [ftid]⟩ := by
  induction events with
  | nil => exact Or.inl rfl
  | cons x xs ih =>
    unfold runFallbackChecks at ih ⊢
    rw [List.foldl_cons, fallbackCheck_fresh]
    by_cases h : fallbackTrigger x
    · rw [if_pos h]
      exact Or.inr (runFallbackChecks_after_load rtid ftid xs)
    · rw [if_neg h]
      exact ih

/-- C4: for a resolved thread with a linked persistent id, however many
times the trigger condition is evaluated (including the delayed secondary
checks), at most one history-recovery GET is issued; exactly one as soon as
some evaluation sees the execution store finished loading with zero
messages, and none when no evaluation does. -/
theorem fallback_at_most_one_load (rtid ftid : String)
    (events : List FallbackObservation) :
    (runFallbackChecks rtid ftid ⟨none, []⟩ events).loads.length ≤ 1 ∧
    ((∃ e ∈ events, fallbackTrigger e) →
      (runFallbackChecks rtid ftid ⟨none, []⟩ events).loads = [ftid]) := by
  have hfire : ∀ evs : List FallbackObservation, (∃ e ∈ evs, fallbackTrigger e) →
      runFallbackChecks rtid ftid ⟨none, []⟩ evs = ⟨some rtid, [ftid]⟩ := by
    intro evs
    induction evs with
    | nil => rintro ⟨e, he, -⟩; exact absurd he (List.not_mem_nil e)
    | cons x xs ih =>
      rintro ⟨e, he, htr⟩
      unfold runFallbackChecks
      rw [List.foldl_cons, fallbackCheck_fresh]
      by_cases hx : fallbackTrigger x
      · rw [if_pos hx]
        exact runFallbackChecks_after_load rtid ftid xs
      · rw [if_neg hx]
        rcases List.mem_cons.mp he with rfl | hmem
        · exact absurd htr hx
        · exact ih ⟨e, hmem, htr⟩
  constructor
  · rcases runFallbackChecks_cases rtid ftid events with h | h <;> rw [h] <;> simp
  · intro htrig
    rw [hfire events htrig]

/-- Witness for C4: three evaluations, of which the second and third see a
finished, empty stream, issue exactly one load. -/
theorem fallback_at_most_one_load_witness :
    (∃ e ∈ [⟨true, 0, false, 0⟩, ⟨false, 0, false, 0⟩,
             (⟨false, 0, false, 0⟩ : FallbackObservation)],
       fallbackTrigger e) ∧
    (runFallbackChecks "exec-9" "svc-1" ⟨none, []⟩
        [⟨true, 0, false, 0⟩, ⟨false, 0, false, 0⟩,
         ⟨false, 0, false, 0⟩]).loads = ["svc-1"] :=
  ⟨⟨⟨false, 0, false, 0⟩, by simp, by decide⟩,
   (fallback_at_most_one_load "exec-9" "svc-1"
     [⟨true, 0, false, 0⟩, ⟨false, 0, false, 0⟩, ⟨false, 0, false, 0⟩]).2
     ⟨⟨false, 0, false, 0⟩, by simp, by decide⟩⟩

/-- Counting helper: setting index i replaces the contribution of the old
element by that of the new one. -/
lemma countP_set_of (p : CreatorPC → Bool) (l : List CreatorPC) (i : Nat)
    (old new : CreatorPC) (h : l[i]? = some old) :
    (l.set i new).countP p
      = l.countP p - (if p old then 1 else 0) + (if p new then 1 else 0) := by
  obtain ⟨hi, hval⟩ := List.getElem?_eq_some_iff.mp h
  have := List.countP_set p l i new hi
  rw [hval] at this
  exact this

/-- Counting helper: an element present at some index contributes. -/
lemma countP_pos_of_get (p : CreatorPC → Bool) (l : List CreatorPC) (i : Nat)
    (old : CreatorPC) (h : l[i]? = some old) (hp : p old) :
    1 ≤ l.countP p := by
  obtain ⟨hi, hval⟩ := List.getElem?_eq_some_iff.mp h
  have := List.boole_getElem_le_countP p l i hi
  rw [hval, if_pos hp] at this
  exact this

/-- Every state a creation flow can be in while it may still POST also
holds the critical section. -/
lemma countP_isPrePost_le_isInProg (l : List CreatorPC) :
    l.countP isPrePost ≤ l.countP isInProg := by
  apply List.countP_mono_left
  intro pc _ hpc
  cases pc <;> simp_all [isPrePost, isInProg]

/-- A flow suspended right after its POST may still POST (trivial count
comparison used to bound the posted count). -/
lemma countP_isPosted_le_isPrePost (l : List CreatorPC) :
    l.countP isPosted ≤ l.countP isPrePost := by
  apply List.countP_mono_left
  intro pc _ hpc
  cases pc <;> simp_all [isPosted, isPrePost]

/-- Waiter-list helper: setting one entry to a value that satisfies the
resolved-id property preserves it for the whole list. -/
lemma waiters_ok_set {newId : String} {ws : List WaiterPC}
    (hok : ∀ (j : Nat) (r : Option String),
        ws[j]? = some (WaiterPC.resolved r) → r = some newId)
    (j : Nat) (x : WaiterPC)
    (hx : ∀ r, x = WaiterPC.resolved r → r = some newId) :
    ∀ (j' : Nat) (r : Option String),
      (ws.set j x)[j']? = some (WaiterPC.resolved r) → r = some newId := by
  intro j' r h
  rw [List.getElem?_set] at h
  split at h
  · split at h
    · exact hx r (Option.some.inj h)
    · exact absurd h (by simp)
  · exact hok j' r h

/-- The invariant of the creation state machine, established right after
the first creation flow has taken the lock and preserved by every step:
the lock is held by exactly one in-progress flow; the attempted marker
tracks the map entry, which can only ever hold the id returned by the one
successful POST; the POST count is one when a create succeeded and is
otherwise bounded by the single in-flight flow; resolved waiters only ever
saw the mapped id; the lock is only ever free once the map holds the id;
and the first creation flow has passed its synchronous prefix. -/
structure CreationInv (newId : String) (c : CreationConfig) : Prop where
  lock_one : c.st.lock = true → c.creators.countP isInProg = 1
  lock_zero : c.st.lock = false → c.creators.countP isInProg = 0
  created_eq : c.st.created = c.st.threadMap.isSome
  map_val : c.st.threadMap = none ∨ c.st.threadMap = some newId
  created_noPre : c.st.created = true → c.creators.countP isPrePost = 0
  post_eq : c.st.postCount
      = c.creators.countP isPosted + (if c.st.created then 1 else 0)
  waiters_ok : ∀ (j : Nat) (r : Option String),
      c.waiters[j]? = some (WaiterPC.resolved r) → r = some newId
  free_mapped : c.st.lock = false → c.st.threadMap = some newId
  mapSet_created : ∀ k : Nat,
      c.creators[k]? = some CreatorPC.mapSet → c.st.created = true
  c0_started : c.creators[0]? ≠ some CreatorPC.start
  c0_done_created :
      c.creators[0]? = some CreatorPC.mapSet ∨
        c.creators[0]? = some CreatorPC.done →
        c.st.created = true

/-- Variant of the counting helper with the contributions precomputed. -/
lemma countP_set_of' (p : CreatorPC → Bool) (l : List CreatorPC) (i : Nat)
    (old new : CreatorPC) (h : l[i]? = some old) (a b : Nat)
    (ha : (if p old then 1 else 0) = a) (hb : (if p new then 1 else 0) = b) :
    (l.set i new).countP p = l.countP p - a + b := by
  rw [countP_set_of p l i old new h, ha, hb]

/-- Preservation: every interleaved step of a creation flow or a waiter
flow keeps the creation invariant. -/
lemma CreationInv.preserve (newId : String) (c : CreationConfig)
    (inv : CreationInv newId c) (w : Bool × Nat) :
    CreationInv newId (stepCreation newId c w) := by
  obtain ⟨b, i⟩ := w
  cases b
  case false =>
    show CreationInv newId (stepWaiter c i)
    unfold stepWaiter
    cases hget : c.waiters[i]? with
    | none => exact inv
    | some pc =>
      cases pc with
      | check =>
        cases hmap : c.st.threadMap with
        | none =>
          cases hl : c.st.lock with
          | true =>
            exact { inv with
              waiters_ok := waiters_ok_set inv.waiters_ok i .waiting
                (fun r hr => by simp at hr) }
          | false =>
            have := inv.free_mapped hl
            rw [hmap] at this
            simp at this
        | some v =>
          have hv : v = newId := by
            rcases inv.map_val with h | h
            · rw [hmap] at h; simp at h
            · rw [hmap] at h; exact Option.some.inj h
          subst hv
          exact { inv with
            waiters_ok := waiters_ok_set inv.waiters_ok i (.resolved (some v))
              (fun r hr => by
                have := WaiterPC.resolved.inj hr
                exact this.symm) }
      | waiting =>
        cases hl : c.st.lock with
        | true => exact inv
        | false =>
          have hmapS := inv.free_mapped hl
          rw [hmapS]
          exact { inv with
            waiters_ok := waiters_ok_set inv.waiters_ok i
              (.resolved (some newId))
              (fun r hr => (WaiterPC.resolved.inj hr).symm) }
      | resolved r => exact inv
  case true =>
    show CreationInv newId (stepCreator newId c i)
    unfold stepCreator
    cases hget : c.creators[i]? with
    | none => exact inv
    | some pc =>
      have hi : i < c.creators.length := (List.getElem?_eq_some_iff.mp hget).1
      cases pc with
      | start =>
        have hne : i ≠ 0 := fun h => inv.c0_started (h ▸ hget)
        by_cases hcond : c.st.threadMap.isSome = true ∨ c.st.lock = true ∨
            c.st.created = true
        · rw [if_pos hcond]
          show CreationInv newId { c with creators := c.creators.set i CreatorPC.done }
          refine {
            lock_one := fun hl => ?_
            lock_zero := fun hl => ?_
            created_eq := inv.created_eq
            map_val := inv.map_val
            created_noPre := fun hc => ?_
            post_eq := ?_
            waiters_ok := inv.waiters_ok
            free_mapped := inv.free_mapped
            mapSet_created := fun k hk => ?_
            c0_started := ?_
            c0_done_created := fun h => ?_ }
          · (try dsimp only); rw [countP_set_of' isInProg c.creators i .start .done hget 0 0 rfl rfl]
            have := inv.lock_one hl
            omega
          · (try dsimp only); rw [countP_set_of' isInProg c.creators i .start .done hget 0 0 rfl rfl]
            have := inv.lock_zero hl
            omega
          · (try dsimp only); rw [countP_set_of' isPrePost c.creators i .start .done hget 0 0 rfl rfl]
            have := inv.created_noPre hc
            omega
          · (try dsimp only); rw [countP_set_of' isPosted c.creators i .start .done hget 0 0 rfl rfl]
            have := inv.post_eq
            omega
          · rw [List.getElem?_set] at hk
            split at hk
            all_goals first
              | exact absurd hk (by decide)
              | exact absurd hk (by simp)
              | exact inv.mapSet_created k hk
          · rw [List.getElem?_set_ne hne]
            exact inv.c0_started
          · rw [List.getElem?_set_ne hne] at h
            exact inv.c0_done_created h
        · rw [if_neg hcond]
          show CreationInv newId
            { c with st := { c.st with lock := true },
                     creators := c.creators.set i CreatorPC.gotLock }
          push_neg at hcond
          obtain ⟨hm, hl, hcr⟩ := hcond
          simp only [ne_eq, Bool.not_eq_true] at hm hl hcr
          refine {
            lock_one := fun _ => ?_
            lock_zero := fun hf => by simp at hf
            created_eq := inv.created_eq
            map_val := inv.map_val
            created_noPre := fun hc => by rw [hc] at hcr; simp at hcr
            post_eq := ?_
            waiters_ok := inv.waiters_ok
            free_mapped := fun hf => by simp at hf
            mapSet_created := fun k hk => ?_
            c0_started := ?_
            c0_done_created := fun h => ?_ }
          · (try dsimp only); rw [countP_set_of' isInProg c.creators i .start .gotLock hget 0 1 rfl rfl]
            have := inv.lock_zero hl
            omega
          · (try dsimp only); rw [countP_set_of' isPosted c.creators i .start .gotLock hget 0 0 rfl rfl]
            have := inv.post_eq
            omega
          · rw [List.getElem?_set] at hk
            split at hk
            all_goals first
              | exact absurd hk (by decide)
              | exact absurd hk (by simp)
              | exact inv.mapSet_created k hk
          · rw [List.getElem?_set_ne hne]
            exact inv.c0_started
          · rw [List.getElem?_set_ne hne] at h
            exact inv.c0_done_created h
      | gotLock =>
        by_cases hcond : c.st.threadMap.isSome = true
        · rw [if_pos hcond]
          have hcr : c.st.created = true := by rw [inv.created_eq]; exact hcond
          have h0 := inv.created_noPre hcr
          have h1 := countP_pos_of_get isPrePost c.creators i .gotLock hget
            (by decide)
          exact absurd h0 (by omega)
        · rw [if_neg hcond]
          show CreationInv newId
            { c with st := { c.st with postCount := c.st.postCount + 1 },
                     creators := c.creators.set i CreatorPC.posted }
          have hmap : c.st.threadMap = none := by
            rcases hm2 : c.st.threadMap with _ | v
            · rfl
            · rw [hm2] at hcond; simp at hcond
          have hcr : c.st.created = false := by rw [inv.created_eq, hmap]; rfl
          have hlock : c.st.lock = true := by
            cases hl2 : c.st.lock with
            | false =>
              have h0 := inv.lock_zero hl2
              have h1 := countP_pos_of_get isInProg c.creators i .gotLock hget
                (by decide)
              omega
            | true => rfl
          refine {
            lock_one := fun _ => ?_
            lock_zero := fun hf => by rw [hlock] at hf; simp at hf
            created_eq := inv.created_eq
            map_val := inv.map_val
            created_noPre := fun hc => by rw [hc] at hcr; simp at hcr
            post_eq := ?_
            waiters_ok := inv.waiters_ok
            free_mapped := fun hf => by rw [hlock] at hf; simp at hf
            mapSet_created := fun k hk => ?_
            c0_started := ?_
            c0_done_created := fun h => ?_ }
          · (try dsimp only); rw [countP_set_of' isInProg c.creators i .gotLock .posted hget 1 1 rfl rfl]
            have := inv.lock_one hlock
            have h1 := countP_pos_of_get isInProg c.creators i .gotLock hget
              (by decide)
            omega
          · (try dsimp only); rw [countP_set_of' isPosted c.creators i .gotLock .posted hget 0 1 rfl rfl]
            have := inv.post_eq
            rw [hcr] at this
            simp only [Bool.false_eq_true, if_false] at this
            rw [hcr]
            simp only [Bool.false_eq_true, if_false]
            omega
          · rw [List.getElem?_set] at hk
            split at hk
            all_goals first
              | exact absurd hk (by decide)
              | exact absurd hk (by simp)
              | exact inv.mapSet_created k hk
          · by_cases h0 : i = 0
            · subst h0
              rw [List.getElem?_set_self hi]
              simp
            · rw [List.getElem?_set_ne h0]
              exact inv.c0_started
          · by_cases h0 : i = 0
            · subst h0
              rw [List.getElem?_set_self hi] at h
              rcases h with h | h <;> simp at h
            · rw [List.getElem?_set_ne h0] at h
              exact inv.c0_done_created h
      | posted =>
        have hmap : c.st.threadMap = none := by
          rcases inv.map_val with h | h
          · exact h
          · have hcr : c.st.created = true := by
              rw [inv.created_eq, h]; rfl
            have h0 := inv.created_noPre hcr
            have h1 := countP_pos_of_get isPrePost c.creators i .posted hget
              (by decide)
            omega
        have hcr : c.st.created = false := by rw [inv.created_eq, hmap]; rfl
        have hlock : c.st.lock = true := by
          cases hl2 : c.st.lock with
          | false =>
            have h0 := inv.lock_zero hl2
            have h1 := countP_pos_of_get isInProg c.creators i .posted hget
              (by decide)
            omega
          | true => rfl
        have hpre1 : c.creators.countP isPrePost = 1 := by
          have hle := countP_isPrePost_le_isInProg c.creators
          have h1 := inv.lock_one hlock
          have h2 := countP_pos_of_get isPrePost c.creators i .posted hget
            (by decide)
          omega
        show CreationInv newId
          { c with st := { c.st with threadMap := some newId, created := true },
                   creators := c.creators.set i CreatorPC.mapSet }
        refine {
          lock_one := fun _ => ?_
          lock_zero := fun hf => by rw [hlock] at hf; simp at hf
          created_eq := rfl
          map_val := Or.inr rfl
          created_noPre := fun _ => ?_
          post_eq := ?_
          waiters_ok := inv.waiters_ok
          free_mapped := fun hf => by rw [hlock] at hf
          mapSet_created := fun _ _ => rfl
          c0_started := ?_
          c0_done_created := fun _ => rfl }
        · (try dsimp only); rw [countP_set_of' isInProg c.creators i .posted .mapSet hget 1 1 rfl rfl]
          have := inv.lock_one hlock
          have h1 := countP_pos_of_get isInProg c.creators i .posted hget
            (by decide)
          omega
        · (try dsimp only); rw [countP_set_of' isPrePost c.creators i .posted .mapSet hget 1 0 rfl rfl]
          omega
        · (try dsimp only); rw [countP_set_of' isPosted c.creators i .posted .mapSet hget 1 0 rfl rfl]
          have hold := inv.post_eq
          rw [hcr] at hold
          simp only [Bool.false_eq_true, if_false] at hold
          have hge := countP_pos_of_get isPosted c.creators i .posted hget
            (by decide)
          show c.st.postCount = c.creators.countP isPosted - 1 + 0 + 1
          omega
        · by_cases h0 : i = 0
          · subst h0
            rw [List.getElem?_set_self hi]
            simp
          · rw [List.getElem?_set_ne h0]
            exact inv.c0_started
      | mapSet =>
        have hcr : c.st.created = true := inv.mapSet_created i hget
        have hmapS : c.st.threadMap = some newId := by
          rcases inv.map_val with h | h
          · rw [inv.created_eq, h] at hcr; simp at hcr
          · exact h
        have hlock : c.st.lock = true := by
          cases hl2 : c.st.lock with
          | false =>
            have h0 := inv.lock_zero hl2
            have h1 := countP_pos_of_get isInProg c.creators i .mapSet hget
              (by decide)
            omega
          | true => rfl
        show CreationInv newId
          { c with st := { c.st with lock := false },
                   creators := c.creators.set i CreatorPC.done }
        refine {
          lock_one := fun hf => by simp at hf
          lock_zero := fun _ => ?_
          created_eq := inv.created_eq
          map_val := inv.map_val
          created_noPre := fun hc => ?_
          post_eq := ?_
          waiters_ok := inv.waiters_ok
          free_mapped := fun _ => hmapS
          mapSet_created := fun k hk => ?_
          c0_started := ?_
          c0_done_created := fun _ => hcr }
        · (try dsimp only); rw [countP_set_of' isInProg c.creators i .mapSet .done hget 1 0 rfl rfl]
          have := inv.lock_one hlock
          omega
        · (try dsimp only); rw [countP_set_of' isPrePost c.creators i .mapSet .done hget 0 0 rfl rfl]
          have := inv.created_noPre hc
          omega
        · (try dsimp only); rw [countP_set_of' isPosted c.creators i .mapSet .done hget 0 0 rfl rfl]
          have := inv.post_eq
          omega
        · rw [List.getElem?_set] at hk
          split at hk
          all_goals first
            | exact absurd hk (by decide)
            | exact absurd hk (by simp)
            | exact inv.mapSet_created k hk
        · by_cases h0 : i = 0
          · subst h0
            rw [List.getElem?_set_self hi]
            simp
          · rw [List.getElem?_set_ne h0]
            exact inv.c0_started
      | done => exact inv

/-- The invariant holds right after the first creation flow has run its
synchronous prefix (checks plus lock acquisition) from the initial
configuration. -/
lemma initialCreation_inv (newId : String) (M K : Nat) (hM : 1 ≤ M) :
    CreationInv newId
      (stepCreation newId (initialCreation M K) (true, 0)) := by
  have hget : (initialCreation M K).creators[0]? = some .start := by
    simp [initialCreation, List.getElem?_replicate_of_lt hM]
  show CreationInv newId (stepCreator newId (initialCreation M K) 0)
  unfold stepCreator
  rw [hget]
  rw [if_neg (by simp [initialCreation])]
  have hlen : 0 < (List.replicate M CreatorPC.start).length := by
    simpa using hM
  have hrepl : ∀ p : CreatorPC → Bool, p .start = false →
      (List.replicate M CreatorPC.start).countP p = 0 := by
    intro p hp
    rw [List.countP_replicate, hp]
    simp
  refine {
    lock_one := fun _ => ?_
    lock_zero := fun hf => by simp [initialCreation] at hf
    created_eq := rfl
    map_val := Or.inl rfl
    created_noPre := fun hc => by simp [initialCreation] at hc
    post_eq := ?_
    waiters_ok := fun j r h => ?_
    free_mapped := fun hf => by simp [initialCreation] at hf
    mapSet_created := fun k hk => ?_
    c0_started := ?_
    c0_done_created := fun h => ?_ }
  · show ((List.replicate M CreatorPC.start).set 0 .gotLock).countP isInProg = 1
    rw [countP_set_of' isInProg _ 0 .start .gotLock
      (by simp [List.getElem?_replicate_of_lt hM]) 0 1 rfl rfl]
    rw [hrepl isInProg rfl]
  · show (0 : Nat)
      = ((List.replicate M CreatorPC.start).set 0 .gotLock).countP isPosted
        + (if false = true then 1 else 0)
    rw [countP_set_of' isPosted _ 0 .start .gotLock
      (by simp [List.getElem?_replicate_of_lt hM]) 0 0 rfl rfl]
    rw [hrepl isPosted rfl]
    decide
  · have h' : (List.replicate K WaiterPC.check)[j]?
        = some (WaiterPC.resolved r) := h
    have hmem := List.eq_of_mem_replicate (List.getElem?_mem h')
    exact absurd hmem (by simp)
  · have hk' : ((List.replicate M CreatorPC.start).set 0 CreatorPC.gotLock)[k]?
        = some CreatorPC.mapSet := hk
    rcases List.mem_or_eq_of_mem_set (List.getElem?_mem hk') with hmem | heq
    · exact absurd (List.eq_of_mem_replicate hmem) (by decide)
    · exact absurd heq (by decide)
  · show ((List.replicate M CreatorPC.start).set 0 .gotLock)[0]?
      ≠ some CreatorPC.start
    rw [List.getElem?_set_self hlen]
    simp
  · rcases h with h | h <;>
      · have h' : ((List.replicate M CreatorPC.start).set 0
            CreatorPC.gotLock)[0]? = _ := h
        rw [List.getElem?_set_self hlen] at h'
        exact absurd h' (by decide)

/-- Running any schedule preserves the creation invariant. -/
lemma runCreation_inv (newId : String) (sched : List (Bool × Nat))
    (c : CreationConfig) (inv : CreationInv newId c) :
    CreationInv newId (runCreation newId c sched) := by
  induction sched generalizing c with
  | nil => exact inv
  | cons w rest ih =>
    exact ih (stepCreation newId c w) (CreationInv.preserve newId c inv w)

/-- C2: for one execution-native thread id, under any interleaving of M
creation-effect runs (M at least 1, the first of which runs its synchronous
prefix first, as React runs the creation effect before the sync effect of
the same commit) and K concurrent ensureThreadExists callers, with a
healthy service and a successful create returning newId: at most one POST
/threads is ever issued, exactly one once the first creation flow has
completed, and every caller that resolved resolved to the same persistent
id newId (never to null). -/
theorem thread_creation_idempotent (newId : String) (M K : Nat)
    (hM : 1 ≤ M) (sched : List (Bool × Nat)) :
    (runCreation newId (initialCreation M K) ((true, 0) :: sched)).st.postCount
        ≤ 1 ∧
    (∀ (j : Nat) (r : Option String),
        (runCreation newId (initialCreation M K)
            ((true, 0) :: sched)).waiters[j]?
          = some (WaiterPC.resolved r) → r = some newId) ∧
    ((runCreation newId (initialCreation M K) ((true, 0) :: sched)).creators[0]?
        = some CreatorPC.done →
      (runCreation newId (initialCreation M K)
          ((true, 0) :: sched)).st.postCount = 1) := by
  have inv : CreationInv newId
      (runCreation newId (initialCreation M K) ((true, 0) :: sched)) :=
    runCreation_inv newId sched _ (initialCreation_inv newId M K hM)
  set final := runCreation newId (initialCreation M K) ((true, 0) :: sched)
    with hf
  have key : final.st.postCount ≤ 1 ∧
      (final.st.created = true → final.st.postCount = 1) := by
    have hpost := inv.post_eq
    have hle1 := countP_isPosted_le_isPrePost final.creators
    have hle2 := countP_isPrePost_le_isInProg final.creators
    by_cases hcr : final.st.created = true
    · have h5 := inv.created_noPre hcr
      have hpost1 : final.st.postCount
          = final.creators.countP isPosted + 1 := by
        simpa [hcr] using hpost
      exact ⟨by omega, fun _ => by omega⟩
    · have hcr' : final.st.created = false := by
        cases hc2 : final.st.created with
        | false => rfl
        | true => exact absurd hc2 hcr
      have hpost0 : final.st.postCount = final.creators.countP isPosted := by
        simpa [hcr'] using hpost
      cases hl : final.st.lock with
      | true =>
        have := inv.lock_one hl
        exact ⟨by omega, fun h => absurd h hcr⟩
      | false =>
        have := inv.lock_zero hl
        exact ⟨by omega, fun h => absurd h hcr⟩
  exact ⟨key.1, inv.waiters_ok,
    fun hdone => key.2 (inv.c0_done_created (Or.inr hdone))⟩

/-- Witness for C2: two creation-effect runs and two waiters under a
concrete interleaving issue one POST and both waiters resolve to the
created id. -/
theorem thread_creation_idempotent_witness :
    1 ≤ 2 ∧
    (runCreation "svc-9" (initialCreation 2 2)
        ((true, 0) :: [(true, 0), (true, 0), (true, 0), (false, 0),
          (false, 1), (true, 1)])).st.postCount ≤ 1 :=
  ⟨by decide,
   (thread_creation_idempotent "svc-9" 2 2 (by decide)
     [(true, 0), (true, 0), (true, 0), (false, 0), (false, 1), (true, 1)]).1⟩

/-- The concrete interleaving of the witness drives both creators to done
and both waiters to the same resolved id, with exactly one POST. -/
lemma creation_concrete_run :
    (runCreation "svc-9" (initialCreation 2 2)
        [(true, 0), (true, 0), (true, 0), (true, 0), (false, 0), (false, 1),
         (true, 1)]).st.postCount = 1 ∧
    (runCreation "svc-9" (initialCreation 2 2)
        [(true, 0), (true, 0), (true, 0), (true, 0), (false, 0), (false, 1),
         (true, 1)]).waiters
      = [.resolved (some "svc-9"), .resolved (some "svc-9")] := by
  constructor <;> rfl

/-- The stuck configuration of the sync driver is a fixed point. -/
lemma syncDriverStep_stuck :
    syncDriverStep { pc := .awaitingPrior, syncInProgressSelf := true,
                     syncMessagesCalls := 0 }
      = { pc := .awaitingPrior, syncInProgressSelf := true,
          syncMessagesCalls := 0 } := rfl

/-- C3: the serialization of sync passes deadlocks on itself.  The effect
assigns its own promise to syncInProgressRef.current before the pass
resumes from the health await, so the wait for the prior pass is a wait on
the current pass itself: for any number of event-loop steps syncMessages is
never invoked, whereas a driver whose serialization reference held only the
prior pass (none here) invokes it after three steps. -/
theorem sync_pass_serialization_deadlock :
    (∀ n : Nat,
      (syncDriverStep^[n] syncDriverInit).syncMessagesCalls = 0 ∧
      (syncDriverStep^[n] syncDriverInit).pc ≠ .readyToSync) ∧
    (syncDriverStep^[3] intendedDriverInit).syncMessagesCalls = 1 := by
  constructor
  · intro n
    cases n with
    | zero => exact ⟨rfl, by decide⟩
    | succ m =>
      have hstuck : ∀ k : Nat,
          syncDriverStep^[k]
            ({ pc := .awaitingPrior, syncInProgressSelf := true,
               syncMessagesCalls := 0 } : SyncDriverState)
          = { pc := .awaitingPrior, syncInProgressSelf := true,
              syncMessagesCalls := 0 } := by
        intro k
        induction k with
        | zero => rfl
        | succ j ih => rw [Function.iterate_succ_apply, syncDriverStep_stuck, ih]
      have h1 : syncDriverStep^[m + 1] syncDriverInit
          = syncDriverStep^[m]
              ({ pc := .awaitingPrior, syncInProgressSelf := true,
                 syncMessagesCalls := 0 } : SyncDriverState) := by
        rw [Function.iterate_succ_apply]
        rfl
      rw [h1, hstuck m]
      exact ⟨rfl, by decide⟩
  · rfl

/-- Witness for C7: ten mutations in one window produce exactly one PATCH
carrying the tenth snapshot. -/
theorem debounced_file_coalescing_witness :
    ([[("f", "1")], [("f", "2")], [("f", "3")], [("f", "4")], [("f", "5")],
      [("f", "6")], [("f", "7")], [("f", "8")], [("f", "9")],
      [("f", "10")]].getLast? = some [("f", "10")]) ∧
    ((runDebounceWindow true ⟨[], [], none, []⟩
        [[("f", "1")], [("f", "2")], [("f", "3")], [("f", "4")], [("f", "5")],
         [("f", "6")], [("f", "7")], [("f", "8")], [("f", "9")],
         [("f", "10")]]).patches
      = [] ++ (if [("f", "10")] = ([] : FileSnapshot) then [] else [[("f", "10")]]) ∧
     ([("f", "10")] = ([] : FileSnapshot) →
       (runDebounceWindow true ⟨[], [], none, []⟩
          [[("f", "1")], [("f", "2")], [("f", "3")], [("f", "4")], [("f", "5")],
           [("f", "6")], [("f", "7")], [("f", "8")], [("f", "9")],
           [("f", "10")]]).syncedFiles = []) ∧
     ([("f", "10")] ≠ ([] : FileSnapshot) →
       (runDebounceWindow true ⟨[], [], none, []⟩
          [[("f", "1")], [("f", "2")], [("f", "3")], [("f", "4")], [("f", "5")],
           [("f", "6")], [("f", "7")], [("f", "8")], [("f", "9")],
           [("f", "10")]]).syncedFiles = [("f", "10")])) :=
  ⟨by decide,
   debounced_file_coalescing ⟨[], [], none, []⟩
     [[("f", "1")], [("f", "2")], [("f", "3")], [("f", "4")], [("f", "5")],
      [("f", "6")], [("f", "7")], [("f", "8")], [("f", "9")], [("f", "10")]]
     [("f", "10")] (by decide)⟩

end DeepAgentsUI
